import Mathlib

/-!
Verification of the SmartLocker face-service core (`face_service.py` and the
`LocalStorage` backend of `storage.py`) against its natural-language
specification.

Modelling conventions (shallow embedding):
* Opaque external capabilities (OpenCV image decode, Haar-cascade face
  detection, LBPH classifier predict/read) are environment records of pure
  functions over opaque `Nat` handles; a Python call that may raise an
  exception which the service catches is modelled as an `Option` result.
* Floating-point confidences are modelled as rationals (`ℚ`): the service
  only ever compares confidences, never does arithmetic on them.
* Mutable module-level state (`_cached_recognizers`, `_cached_label_dict`,
  `_cache_loaded`) is an explicit `CacheState` value threaded through the
  operations; the set of live temporary files is an explicit list threaded
  alongside so that resource claims can be stated.
* Python byte strings are `List Nat`, Python `str` is Lean `String`.
-/

namespace SmartLocker

/-- One storage I/O call performed during a cache rebuild:
the initial `storage.list_models()` enumeration, or one
`storage.download_to_temp(model_ref)` call. -/
inductive IOEvent where
  | listModels
  | download (ref : String)
deriving DecidableEq

/-- The module-level cache of `face_service.py`: `_cached_recognizers`
(pairs of an opaque classifier handle and its integer label),
`_cached_label_dict` (association list label → username, built with distinct
keys, read with first-match lookup like a Python dict), and `_cache_loaded`. -/
structure CacheState where
  recognizers : List (Nat × Nat)
  labelDict : List (Nat × String)
  loaded : Bool
deriving DecidableEq

/-- The storage backend as seen by `load_models_into_cache`:
`list_models()` returns `(user, model_ref)` pairs; `download_to_temp`
materializes a ref to a local temp file name (`none` = the call raises);
`readRecognizer` is `LBPHFaceRecognizer.read` on that temp file, producing an
opaque classifier handle (`none` = the read raises on corrupt bytes). -/
structure StoreEnv where
  list_models : List (String × String)
  download_to_temp : String → Option String
  readRecognizer : String → Option Nat
deriving Inhabited

/-- Whether the `try` body of the cache-rebuild loop succeeds for one
enumerated `(user, ref)` entry: the download must succeed and the returned
temp file must deserialize into a classifier. -/
def loadOk (env : StoreEnv) (m : String × String) : Bool :=
  match env.download_to_temp m.2 with
  | none => false
  | some t => (env.readRecognizer t).isSome

/-- Loop state of the `for user, model_ref in models` loop in
`load_models_into_cache`: the `recognizers` and `label_dict` being built, the
running `label_id`, and the set of temporary files currently on disk. -/
structure LoadAcc where
  recognizers : List (Nat × Nat)
  labelDict : List (Nat × String)
  label_id : Nat
  temps : List String
deriving DecidableEq

/-- One iteration of the rebuild loop. On download failure the entry is
skipped; on read failure the entry is skipped but the downloaded temp file is
left on disk (the `os.remove` sits after `recognizer.read` inside the same
`try`, so the `except: continue` path never reaches it); on success the
classifier is appended with the next dense label and the temp file removed. -/
def loadStep (env : StoreEnv) (acc : LoadAcc) (m : String × String) : LoadAcc :=
  match env.download_to_temp m.2 with
  | none => acc
  | some t =>
    match env.readRecognizer t with
    | none => { acc with temps := acc.temps ++ [t] }
    | some r =>
      { recognizers := acc.recognizers ++ [(r, acc.label_id)]
        labelDict := acc.labelDict ++ [(acc.label_id, m.1)]
        label_id := acc.label_id + 1
        temps := (acc.temps ++ [t]).erase t }

/-- Result of `load_models_into_cache`: the new cache, the temp files left on
disk, and the storage I/O calls the invocation performed. -/
structure LoadResult where
  cache : CacheState
  temps : List String
  events : List IOEvent
deriving DecidableEq

/-- `face_service.load_models_into_cache(force)`: if the cache is loaded and
`force` is false, return immediately (no storage I/O); otherwise enumerate
`list_models()` and run the rebuild loop, then publish the new recognizers
and label dictionary with `loaded := true`. -/
def load_models_into_cache (env : StoreEnv) (force : Bool)
    (cache : CacheState) (temps : List String) : LoadResult :=
  if cache.loaded && !force then ⟨cache, temps, []⟩
  else
    let acc := env.list_models.foldl (loadStep env) ⟨[], [], 0, temps⟩
    ⟨⟨acc.recognizers, acc.labelDict, true⟩, acc.temps,
      .listModels :: env.list_models.map (fun m => .download m.2)⟩

/-- The classifier/label part of the rebuild loop state: exactly the data the
published cache is built from (the temp-file set does not feed back into it). -/
def LoadAcc.core (acc : LoadAcc) :
    List (Nat × Nat) × List (Nat × String) × Nat :=
  (acc.recognizers, acc.labelDict, acc.label_id)

/-- The action of one rebuild-loop iteration on the classifier/label data. -/
def coreStep (env : StoreEnv)
    (c : List (Nat × Nat) × List (Nat × String) × Nat)
    (m : String × String) : List (Nat × Nat) × List (Nat × String) × Nat :=
  match env.download_to_temp m.2 with
  | none => c
  | some t =>
    match env.readRecognizer t with
    | none => c
    | some r => (c.1 ++ [(r, c.2.2)], c.2.1 ++ [(c.2.2, m.1)], c.2.2 + 1)

/-- The action of one rebuild-loop iteration on the set of live temp files. -/
def tempStep (env : StoreEnv) (ts : List String) (m : String × String) :
    List String :=
  match env.download_to_temp m.2 with
  | none => ts
  | some t =>
    match env.readRecognizer t with
    | none => ts ++ [t]
    | some _ => (ts ++ [t]).erase t

/-- The classifier handle a successfully loaded entry contributes. -/
def okHandle (env : StoreEnv) (m : String × String) : Nat :=
  match env.download_to_temp m.2 with
  | none => 0
  | some t => (env.readRecognizer t).getD 0

theorem core_loadStep (env : StoreEnv) (acc : LoadAcc) (m : String × String) :
    (loadStep env acc m).core = coreStep env acc.core m := by
  cases hd : env.download_to_temp m.2 with
  | none => simp [loadStep, coreStep, LoadAcc.core, hd]
  | some t =>
    cases hr : env.readRecognizer t <;>
      simp [loadStep, coreStep, LoadAcc.core, hd, hr]

theorem temps_loadStep (env : StoreEnv) (acc : LoadAcc) (m : String × String) :
    (loadStep env acc m).temps = tempStep env acc.temps m := by
  cases hd : env.download_to_temp m.2 with
  | none => simp [loadStep, tempStep, hd]
  | some t =>
    cases hr : env.readRecognizer t <;>
      simp [loadStep, tempStep, hd, hr]

theorem core_foldl (env : StoreEnv) :
    ∀ (l : List (String × String)) (acc : LoadAcc),
      (l.foldl (loadStep env) acc).core = l.foldl (coreStep env) acc.core := by
  intro l
  induction l with
  | nil => intro acc; rfl
  | cons m rest ih =>
    intro acc
    simp only [List.foldl_cons, ih, core_loadStep]

theorem temps_foldl (env : StoreEnv) :
    ∀ (l : List (String × String)) (acc : LoadAcc),
      (l.foldl (loadStep env) acc).temps = l.foldl (tempStep env) acc.temps := by
  intro l
  induction l with
  | nil => intro acc; rfl
  | cons m rest ih =>
    intro acc
    simp only [List.foldl_cons, ih, temps_loadStep]

theorem coreStep_of_loadOk_false (env : StoreEnv)
    (c : List (Nat × Nat) × List (Nat × String) × Nat) (m : String × String)
    (h : loadOk env m = false) : coreStep env c m = c := by
  cases hd : env.download_to_temp m.2 with
  | none => simp [coreStep, hd]
  | some t =>
    cases hr : env.readRecognizer t with
    | none => simp [coreStep, hd, hr]
    | some r => simp [loadOk, hd, hr] at h

/-- Full characterization of the classifier/label fold over an enumeration:
labels continue densely from the incoming `label_id`, one per entry for which
download and deserialization succeed, and the label dictionary records those
entries' users in enumeration order. -/
theorem coreFold_spec (env : StoreEnv) :
    ∀ (l : List (String × String)) (r : List (Nat × Nat))
      (d : List (Nat × String)) (n : Nat),
      (l.foldl (coreStep env) (r, d, n)).2.2
          = n + (l.filter (loadOk env)).length ∧
      (l.foldl (coreStep env) (r, d, n)).1.map Prod.snd
          = r.map Prod.snd ++ List.range' n (l.filter (loadOk env)).length ∧
      (l.foldl (coreStep env) (r, d, n)).2.1.map Prod.fst
          = d.map Prod.fst ++ List.range' n (l.filter (loadOk env)).length ∧
      (l.foldl (coreStep env) (r, d, n)).2.1.map Prod.snd
          = d.map Prod.snd ++ (l.filter (loadOk env)).map Prod.fst ∧
      (l.foldl (coreStep env) (r, d, n)).1.length
          = r.length + (l.filter (loadOk env)).length := by
  intro l
  induction l with
  | nil => intro r d n; simp
  | cons m rest ih =>
    intro r d n
    by_cases h : loadOk env m = true
    · have hstep : coreStep env (r, d, n) m
          = (r ++ [(okHandle env m, n)], d ++ [(n, m.1)], n + 1) := by
        cases hd : env.download_to_temp m.2 with
        | none => simp [loadOk, hd] at h
        | some t =>
          cases hr : env.readRecognizer t with
          | none => simp [loadOk, hd, hr] at h
          | some cl => simp [coreStep, okHandle, hd, hr]
      obtain ⟨ih1, ih2, ih3, ih4, ih5⟩ :=
        ih (r ++ [(okHandle env m, n)]) (d ++ [(n, m.1)]) (n + 1)
      refine ⟨?_, ?_, ?_, ?_, ?_⟩ <;>
        simp [List.foldl_cons, hstep, ih1, ih2, ih3, ih4, ih5, h,
          List.filter_cons, List.range'_succ] <;> omega
    · have h0 : loadOk env m = false := by simpa using h
      obtain ⟨ih1, ih2, ih3, ih4, ih5⟩ := ih r d n
      refine ⟨?_, ?_, ?_, ?_, ?_⟩ <;>
        simp [List.foldl_cons, coreStep_of_loadOk_false env _ _ h0,
          ih1, ih2, ih3, ih4, ih5, List.filter_cons, h0]

theorem rebuild_loaded_after (env : StoreEnv) (force : Bool)
    (cache : CacheState) (temps : List String) :
    (load_models_into_cache env force cache temps).cache.loaded = true := by
  by_cases h : cache.loaded = true <;> by_cases hf : force = true <;>
    simp [load_models_into_cache, h, hf]

/-- C3. With the loaded flag set, a non-forced rebuild is a no-op performing
no storage I/O, and two successive non-forced rebuilds perform storage I/O at
most once (the second call always finds the flag set and emits no events). -/
theorem rebuild_unforced_noop_when_loaded (env : StoreEnv)
    (cache : CacheState) (temps : List String) :
    (cache.loaded = true →
      load_models_into_cache env false cache temps = ⟨cache, temps, []⟩) ∧
    (load_models_into_cache env false
        (load_models_into_cache env false cache temps).cache
        (load_models_into_cache env false cache temps).temps).events = [] := by
  constructor
  · intro h
    simp [load_models_into_cache, h]
  · have hl := rebuild_loaded_after env false cache temps
    generalize load_models_into_cache env false cache temps = r at hl
    simp [load_models_into_cache, hl]

theorem rebuild_unforced_noop_when_loaded_witness :
    (load_models_into_cache ⟨[("u", "u/trainer/m.yml")], fun _ => some "t0",
        fun _ => some 3⟩ false ⟨[(7, 0)], [(0, "u")], true⟩ []
      = ⟨⟨[(7, 0)], [(0, "u")], true⟩, [], []⟩) ∧
    (load_models_into_cache ⟨[("u", "u/trainer/m.yml")], fun _ => some "t0",
        fun _ => some 3⟩ false
      (load_models_into_cache ⟨[("u", "u/trainer/m.yml")], fun _ => some "t0",
        fun _ => some 3⟩ false ⟨[(7, 0)], [(0, "u")], true⟩ []).cache
      (load_models_into_cache ⟨[("u", "u/trainer/m.yml")], fun _ => some "t0",
        fun _ => some 3⟩ false ⟨[(7, 0)], [(0, "u")], true⟩ []).temps).events
      = [] :=
  ⟨(rebuild_unforced_noop_when_loaded _ _ _).1 rfl,
   (rebuild_unforced_noop_when_loaded _ _ _).2⟩

/-- C4. A rebuild that actually runs (stale cache or forced) always finishes
with `loaded = true` — even when zero models end up usable — and an entry
whose download or deserialization fails is skipped without aborting: the
resulting cache is the one obtained from the enumeration with that entry
removed. -/
theorem rebuild_skips_failed_entries (env : StoreEnv) (force : Bool)
    (cache : CacheState) (temps : List String)
    (l1 l2 : List (String × String)) (m : String × String) :
    (cache.loaded = false ∨ force = true →
      (load_models_into_cache env force cache temps).cache.loaded = true) ∧
    (loadOk env m = false →
      (load_models_into_cache { env with list_models := l1 ++ m :: l2 }
          true cache temps).cache =
        (load_models_into_cache { env with list_models := l1 ++ l2 }
          true cache temps).cache) := by
  constructor
  · intro _
    exact rebuild_loaded_after env force cache temps
  · intro h
    have hok : loadOk { env with list_models := l1 ++ m :: l2 } = loadOk env := by
      funext x
      simp [loadOk]
    have hok2 : loadOk { env with list_models := l1 ++ l2 } = loadOk env := by
      funext x
      simp [loadOk]
    have hcs : coreStep { env with list_models := l1 ++ m :: l2 } = coreStep env := by
      funext c x
      simp [coreStep]
    have hcs2 : coreStep { env with list_models := l1 ++ l2 } = coreStep env := by
      funext c x
      simp [coreStep]
    have hls : loadStep { env with list_models := l1 ++ m :: l2 } = loadStep env := by
      funext c x
      simp [loadStep]
    have hls2 : loadStep { env with list_models := l1 ++ l2 } = loadStep env := by
      funext c x
      simp [loadStep]
    have key : ∀ (l : List (String × String)) (acc : LoadAcc),
        ((l1 ++ m :: l).foldl (loadStep env) acc).core
          = ((l1 ++ l).foldl (loadStep env) acc).core := by
      intro l acc
      rw [core_foldl, core_foldl, List.foldl_append, List.foldl_append,
        List.foldl_cons, coreStep_of_loadOk_false env _ _ h]
    have hc := key l2 ⟨[], [], 0, temps⟩
    simp only [LoadAcc.core, Prod.mk.injEq] at hc
    simp only [List.foldl_append, List.foldl_cons] at hc
    simp [load_models_into_cache, hls, hls2, CacheState.mk.injEq,
      hc.1, hc.2.1]

theorem rebuild_skips_failed_entries_witness :
    ((load_models_into_cache
        ⟨[("a", "ra")] ++ ("bad", "rb") :: [("c", "rc")],
          fun r => if r = "rb" then none else some ("t" ++ r),
          fun _ => some 5⟩ true ⟨[], [], false⟩ []).cache.loaded = true) ∧
    ((load_models_into_cache
        ⟨[("a", "ra")] ++ ("bad", "rb") :: [("c", "rc")],
          fun r => if r = "rb" then none else some ("t" ++ r),
          fun _ => some 5⟩ true ⟨[], [], false⟩ []).cache =
      (load_models_into_cache
        ⟨[("a", "ra")] ++ [("c", "rc")],
          fun r => if r = "rb" then none else some ("t" ++ r),
          fun _ => some 5⟩ true ⟨[], [], false⟩ []).cache) :=
  ⟨(rebuild_skips_failed_entries
      ⟨[("a", "ra")] ++ ("bad", "rb") :: [("c", "rc")],
        fun r => if r = "rb" then none else some ("t" ++ r),
        fun _ => some 5⟩ true ⟨[], [], false⟩ [] [("a", "ra")] [("c", "rc")]
      ("bad", "rb")).1 (Or.inr rfl),
   (rebuild_skips_failed_entries
      ⟨[("a", "ra")] ++ ("bad", "rb") :: [("c", "rc")],
        fun r => if r = "rb" then none else some ("t" ++ r),
        fun _ => some 5⟩ true ⟨[], [], false⟩ [] [("a", "ra")] [("c", "rc")]
      ("bad", "rb")).2 (by decide)⟩

/-- C5. After a rebuild that actually runs, labels are dense and zero-based:
the i-th successfully loaded classifier carries label i, the label dictionary
keys are exactly 0..n-1 for n loaded models, and its values are the users of
the non-skipped enumeration entries in order. -/
theorem rebuild_labels_dense (env : StoreEnv) (force : Bool)
    (cache : CacheState) (temps : List String)
    (h : cache.loaded = false ∨ force = true) :
    ((load_models_into_cache env force cache temps).cache.recognizers.map
        Prod.snd
      = List.range
        (load_models_into_cache env force cache temps).cache.recognizers.length) ∧
    ((load_models_into_cache env force cache temps).cache.labelDict.map
        Prod.fst
      = List.range
        (load_models_into_cache env force cache temps).cache.recognizers.length) ∧
    ((load_models_into_cache env force cache temps).cache.labelDict.map
        Prod.snd
      = (env.list_models.filter (loadOk env)).map Prod.fst) ∧
    ((load_models_into_cache env force cache temps).cache.recognizers.length
      = (env.list_models.filter (loadOk env)).length) := by
  have hrun : (cache.loaded && !force) = false := by
    rcases h with h | h <;> simp [h]
  have hcore := core_foldl env env.list_models ⟨[], [], 0, temps⟩
  simp only [LoadAcc.core] at hcore
  have e1 : (List.foldl (loadStep env) ⟨[], [], 0, temps⟩
        env.list_models).recognizers
      = (List.foldl (coreStep env) ([], [], 0) env.list_models).1 := by
    rw [← hcore]
  have e2 : (List.foldl (loadStep env) ⟨[], [], 0, temps⟩
        env.list_models).labelDict
      = (List.foldl (coreStep env) ([], [], 0) env.list_models).2.1 := by
    rw [← hcore]
  obtain ⟨_, h2, h3, h4, h5⟩ :=
    coreFold_spec env env.list_models [] [] 0
  simp only [load_models_into_cache, hrun, Bool.false_eq_true, if_false]
  refine ⟨?_, ?_, ?_, ?_⟩
  · rw [e1, h2, h5]
    simp [List.range_eq_range']
  · rw [e2, e1, h3, h5]
    simp [List.range_eq_range']
  · rw [e2, h4]
    simp
  · rw [e1, h5]
    simp

theorem rebuild_labels_dense_witness :
    ((load_models_into_cache
        ⟨[("a", "ra"), ("bad", "rb"), ("c", "rc")],
          fun r => some ("t" ++ r),
          fun t => if t = "trb" then none else some 5⟩
        true ⟨[], [], false⟩ []).cache.recognizers.map Prod.snd
      = List.range 2) ∧
    ((load_models_into_cache
        ⟨[("a", "ra"), ("bad", "rb"), ("c", "rc")],
          fun r => some ("t" ++ r),
          fun t => if t = "trb" then none else some 5⟩
        true ⟨[], [], false⟩ []).cache.labelDict.map Prod.snd
      = ["a", "c"]) := by
  have := rebuild_labels_dense
    ⟨[("a", "ra"), ("bad", "rb"), ("c", "rc")],
      fun r => some ("t" ++ r),
      fun t => if t = "trb" then none else some 5⟩
    true ⟨[], [], false⟩ [] (Or.inr rfl)
  refine ⟨?_, ?_⟩
  · rw [this.1]
    decide
  · rw [this.2.2.1]
    decide

/-- C9 (failing execution). A cache rebuild over a store with a single model
whose bytes fail to deserialize finishes with the downloaded temporary file
still on disk: `os.remove` is placed after `recognizer.read` inside the same
`try`, so the failure path never deletes the temp file, contradicting the
guaranteed-cleanup claim. `train_all` by contrast removes each image temp
before checking decode success. -/
theorem rebuild_leaks_temp_on_deserialize_failure :
    (load_models_into_cache
      ⟨[("alice", "alice/trainer/m1.yml")],
        fun _ => some "tmpA", fun _ => none⟩
      true ⟨[], [], false⟩ []).temps = ["tmpA"] := by
  decide

/-- The external image pipeline used by `recognize_image_bytes`:
`imdecode` decodes probe bytes into an opaque color-image handle (`none` when
`cv2.imdecode` returns `None`); `cvtGray` is the BGR-to-gray conversion;
`detectMultiScale` is the Haar-cascade detector (scale factor 1.2, minimum
five neighbors) returning opaque region handles; `roiResized` crops a region
out of the gray image and resizes it to the canonical 100x100 sample;
`predict` runs one cached classifier on a sample, returning its predicted
label and distance-like confidence (`none` = the call raises). -/
structure RecognizeEnv where
  imdecode : List Nat → Option Nat
  cvtGray : Nat → Nat
  detectMultiScale : Nat → List Nat
  roiResized : Nat → Nat → Nat
  predict : Nat → Nat → Option (Nat × ℚ)

/-- Structured outcome record of `recognize_image_bytes`. -/
inductive RecognizeResult where
  | invalidImage
  | noFaceDetected
  | noModels
  | noPrediction
  | accepted (user : String) (confidence : ℚ)
  | lowConfidence (confidence : ℚ)
deriving DecidableEq

/-- The `found` field of the returned record. -/
def RecognizeResult.found : RecognizeResult → Bool
  | .accepted _ _ => true
  | _ => false

/-- The `(label, confidence)` scores produced by the nested
regions-by-classifiers loop, in iteration order (regions outer, cached
classifiers inner); a classifier whose `predict` raises contributes nothing
(`except: continue`). The label recorded is the cache label of the
classifier, not the label the classifier predicts. -/
def scoresOf (env : RecognizeEnv) (gray : Nat) (faces : List Nat)
    (recognizers : List (Nat × Nat)) : List (Nat × ℚ) :=
  faces.flatMap fun f =>
    recognizers.filterMap fun rl =>
      (env.predict rl.1 (env.roiResized gray f)).map fun p => (rl.2, p.2)

/-- One update of the running best: Python starts from
`{label: None, confidence: inf}` (modelled as `none`) and replaces it when a
score is strictly smaller, so the first score attaining the minimum wins. -/
def updateBest (b : Option (Nat × ℚ)) (s : Nat × ℚ) : Option (Nat × ℚ) :=
  match b with
  | none => some s
  | some (bl, bc) => if s.2 < bc then some s else some (bl, bc)

/-- `face_service.recognize_image_bytes`: lazily reload the cache, decode the
probe, detect faces, score every detected region against every cached
classifier, and apply the threshold gate (`CONFIDENCE_THRESHOLD`, passed here
as `θ`, default 130). Returns the outcome record together with the cache and
temp-file state after the lazy reload. -/
def recognize_image_bytes (senv : StoreEnv) (env : RecognizeEnv) (θ : ℚ)
    (cache : CacheState) (temps : List String) (img_bytes : List Nat) :
    RecognizeResult × CacheState × List String :=
  let lr := load_models_into_cache senv false cache temps
  match env.imdecode img_bytes with
  | none => (.invalidImage, lr.cache, lr.temps)
  | some img =>
    let gray := env.cvtGray img
    let faces := env.detectMultiScale gray
    if faces = [] then (.noFaceDetected, lr.cache, lr.temps)
    else
      let recognizers := lr.cache.recognizers
      let label_dict := lr.cache.labelDict
      if recognizers = [] then (.noModels, lr.cache, lr.temps)
      else
        match (scoresOf env gray faces recognizers).foldl updateBest none with
        | none => (.noPrediction, lr.cache, lr.temps)
        | some (l, c) =>
          if c < θ then
            (.accepted ((label_dict.lookup l).getD "unknown") c,
              lr.cache, lr.temps)
          else (.lowConfidence c, lr.cache, lr.temps)

theorem foldl_updateBest_spec :
    ∀ (scores : List (Nat × ℚ)) (p : Nat × ℚ),
      ∃ q, scores.foldl updateBest (some p) = some q ∧
        (q = p ∨ q ∈ scores) ∧ q.2 ≤ p.2 ∧ ∀ s ∈ scores, q.2 ≤ s.2 := by
  intro scores
  induction scores with
  | nil =>
    intro p
    exact ⟨p, rfl, Or.inl rfl, le_refl _, by simp⟩
  | cons s rest ih =>
    intro p
    by_cases hlt : s.2 < p.2
    · obtain ⟨q, hq, hmem, hle, hall⟩ := ih s
      refine ⟨q, ?_, ?_, ?_, ?_⟩
      · simpa [updateBest, hlt] using hq
      · rcases hmem with h | h
        · exact Or.inr (by simp [h])
        · exact Or.inr (by simp [h])
      · exact le_of_lt (lt_of_le_of_lt hle hlt)
      · intro x hx
        rcases List.mem_cons.mp hx with h | h
        · exact h ▸ hle
        · exact hall x h
    · obtain ⟨q, hq, hmem, hle, hall⟩ := ih p
      refine ⟨q, ?_, ?_, ?_, ?_⟩
      · simpa [updateBest, hlt] using hq
      · rcases hmem with h | h
        · exact Or.inl h
        · exact Or.inr (by simp [h])
      · exact hle
      · intro x hx
        rcases List.mem_cons.mp hx with h | h
        · exact h ▸ le_trans hle (not_lt.mp hlt)
        · exact hall x h

theorem foldl_updateBest_none_spec (scores : List (Nat × ℚ))
    (hne : scores ≠ []) :
    ∃ q, scores.foldl updateBest none = some q ∧
      q ∈ scores ∧ ∀ s ∈ scores, q.2 ≤ s.2 := by
  cases scores with
  | nil => exact absurd rfl hne
  | cons s rest =>
    obtain ⟨q, hq, hmem, hle, hall⟩ := foldl_updateBest_spec rest s
    refine ⟨q, ?_, ?_, ?_⟩
    · simpa [updateBest] using hq
    · rcases hmem with h | h
      · simp [h]
      · simp [h]
    · intro x hx
      rcases List.mem_cons.mp hx with h | h
      · exact h ▸ hle
      · exact hall x h

/-- C1. When decode succeeds, at least one face region is detected, the
lazily reloaded cache holds at least one classifier, and at least one
(region, classifier) pair produces a score, then the reported confidence is
the global minimum over all produced scores, the probe is accepted iff that
minimum is strictly below the threshold, and on accept the user is resolved
from the winning classifier's cache label through the label dictionary with
fallback "unknown". -/
theorem recognize_accept_policy (senv : StoreEnv) (env : RecognizeEnv)
    (θ : ℚ) (cache : CacheState) (temps : List String)
    (img_bytes : List Nat) (img : Nat)
    (hdec : env.imdecode img_bytes = some img)
    (hfaces : env.detectMultiScale (env.cvtGray img) ≠ [])
    (hrecs : (load_models_into_cache senv false cache
        temps).cache.recognizers ≠ [])
    (hscores : scoresOf env (env.cvtGray img)
        (env.detectMultiScale (env.cvtGray img))
        (load_models_into_cache senv false cache temps).cache.recognizers
        ≠ []) :
    ∃ l m,
      (l, m) ∈ scoresOf env (env.cvtGray img)
          (env.detectMultiScale (env.cvtGray img))
          (load_models_into_cache senv false cache temps).cache.recognizers ∧
      (∀ s ∈ scoresOf env (env.cvtGray img)
          (env.detectMultiScale (env.cvtGray img))
          (load_models_into_cache senv false cache temps).cache.recognizers,
        m ≤ s.2) ∧
      (recognize_image_bytes senv env θ cache temps img_bytes).1
        = (if m < θ then
            RecognizeResult.accepted
              (((load_models_into_cache senv false cache
                  temps).cache.labelDict.lookup l).getD "unknown") m
          else RecognizeResult.lowConfidence m) ∧
      ((recognize_image_bytes senv env θ cache temps img_bytes).1.found
        = true ↔ m < θ) := by
  obtain ⟨q, hq, hmem, hall⟩ := foldl_updateBest_none_spec _ hscores
  obtain ⟨l, m⟩ := q
  have hres : (recognize_image_bytes senv env θ cache temps img_bytes).1
      = (if m < θ then
          RecognizeResult.accepted
            (((load_models_into_cache senv false cache
                temps).cache.labelDict.lookup l).getD "unknown") m
        else RecognizeResult.lowConfidence m) := by
    simp only [recognize_image_bytes, hdec, if_neg hfaces, if_neg hrecs, hq]
    by_cases hθ : m < θ <;> simp [hθ]
  refine ⟨l, m, hmem, hall, hres, ?_⟩
  rw [hres]
  by_cases hθ : m < θ <;> simp [hθ, RecognizeResult.found]

theorem recognize_accept_policy_witness :
    ∃ l mm,
      (l, mm) ∈ scoresOf ⟨fun _ => some 1, id, fun _ => [5], fun _ _ => 9,
          fun _ _ => some (0, 50)⟩ (id 1) [5] [(7, 0)] ∧
      (∀ s ∈ scoresOf ⟨fun _ => some 1, id, fun _ => [5], fun _ _ => 9,
          fun _ _ => some (0, 50)⟩ (id 1) [5] [(7, 0)], mm ≤ s.2) ∧
      (recognize_image_bytes
          ⟨[], fun _ => none, fun _ => none⟩
          ⟨fun _ => some 1, id, fun _ => [5], fun _ _ => 9,
            fun _ _ => some (0, 50)⟩ 130
          ⟨[(7, 0)], [(0, "alice")], true⟩ [] [9, 9]).1
        = (if mm < 130 then
            RecognizeResult.accepted
              ((([(0, "alice")] : List (Nat × String)).lookup l).getD
                "unknown") mm
          else RecognizeResult.lowConfidence mm) ∧
      ((recognize_image_bytes
          ⟨[], fun _ => none, fun _ => none⟩
          ⟨fun _ => some 1, id, fun _ => [5], fun _ _ => 9,
            fun _ _ => some (0, 50)⟩ 130
          ⟨[(7, 0)], [(0, "alice")], true⟩ [] [9, 9]).1.found = true
        ↔ mm < 130) :=
  recognize_accept_policy ⟨[], fun _ => none, fun _ => none⟩
    ⟨fun _ => some 1, id, fun _ => [5], fun _ _ => 9,
      fun _ _ => some (0, 50)⟩ 130
    ⟨[(7, 0)], [(0, "alice")], true⟩ [] [9, 9] 1 rfl
    (by decide) (by decide) (by decide)

/-- C2. `recognize_image_bytes` is a total function into structured outcome
records (no unhandled fault), and the failure cases are distinguished along
the cascade of the implementation: undecodable bytes give `invalidImage`;
with a decoded image, zero detected regions give `noFaceDetected`; with
regions, an empty cached model set gives `noModels`; with models, zero
produced scores give `noPrediction`; and a best (minimum) confidence at or
above the threshold gives `lowConfidence` carrying that confidence. -/
theorem recognize_failure_taxonomy (senv : StoreEnv) (env : RecognizeEnv)
    (θ : ℚ) (cache : CacheState) (temps : List String)
    (img_bytes : List Nat) :
    (env.imdecode img_bytes = none →
      (recognize_image_bytes senv env θ cache temps img_bytes).1
        = RecognizeResult.invalidImage) ∧
    (∀ img, env.imdecode img_bytes = some img →
      (env.detectMultiScale (env.cvtGray img) = [] →
        (recognize_image_bytes senv env θ cache temps img_bytes).1
          = RecognizeResult.noFaceDetected) ∧
      (env.detectMultiScale (env.cvtGray img) ≠ [] →
        (load_models_into_cache senv false cache temps).cache.recognizers
          = [] →
        (recognize_image_bytes senv env θ cache temps img_bytes).1
          = RecognizeResult.noModels) ∧
      (env.detectMultiScale (env.cvtGray img) ≠ [] →
        (load_models_into_cache senv false cache temps).cache.recognizers
          ≠ [] →
        scoresOf env (env.cvtGray img) (env.detectMultiScale (env.cvtGray img))
          (load_models_into_cache senv false cache temps).cache.recognizers
          = [] →
        (recognize_image_bytes senv env θ cache temps img_bytes).1
          = RecognizeResult.noPrediction) ∧
      (∀ mm : ℚ,
        env.detectMultiScale (env.cvtGray img) ≠ [] →
        (load_models_into_cache senv false cache temps).cache.recognizers
          ≠ [] →
        (∃ s ∈ scoresOf env (env.cvtGray img)
            (env.detectMultiScale (env.cvtGray img))
            (load_models_into_cache senv false cache
              temps).cache.recognizers, s.2 = mm) →
        (∀ s ∈ scoresOf env (env.cvtGray img)
            (env.detectMultiScale (env.cvtGray img))
            (load_models_into_cache senv false cache
              temps).cache.recognizers, mm ≤ s.2) →
        ¬ mm < θ →
        (recognize_image_bytes senv env θ cache temps img_bytes).1
          = RecognizeResult.lowConfidence mm)) := by
  constructor
  · intro h
    simp [recognize_image_bytes, h]
  · intro img hdec
    refine ⟨?_, ?_, ?_, ?_⟩
    · intro hfaces
      simp [recognize_image_bytes, hdec, hfaces]
    · intro hfaces hrecs
      simp [recognize_image_bytes, hdec, if_neg hfaces, hrecs]
    · intro hfaces hrecs hsc
      simp [recognize_image_bytes, hdec, if_neg hfaces, if_neg hrecs, hsc]
    · intro mm hfaces hrecs hatt hlow hθ
      have hne : scoresOf env (env.cvtGray img)
          (env.detectMultiScale (env.cvtGray img))
          (load_models_into_cache senv false cache temps).cache.recognizers
          ≠ [] := by
        obtain ⟨s, hs, _⟩ := hatt
        intro hcon
        rw [hcon] at hs
        exact absurd hs (List.not_mem_nil s)
      obtain ⟨q, hq, hmem, hall⟩ := foldl_updateBest_none_spec _ hne
      obtain ⟨l, c⟩ := q
      have hceq : c = mm := by
        obtain ⟨s, hs, hsm⟩ := hatt
        exact le_antisymm (hsm ▸ hall s hs) (hlow (l, c) hmem)
      subst hceq
      simp [recognize_image_bytes, hdec, if_neg hfaces, if_neg hrecs,
        hq, hθ]

theorem recognize_failure_taxonomy_witness :
    ((recognize_image_bytes ⟨[], fun _ => none, fun _ => none⟩
        ⟨fun _ => none, id, fun _ => [], fun _ _ => 0, fun _ _ => none⟩
        130 ⟨[], [], true⟩ [] [0]).1 = RecognizeResult.invalidImage) ∧
    ((recognize_image_bytes ⟨[], fun _ => none, fun _ => none⟩
        ⟨fun _ => some 1, id, fun _ => [], fun _ _ => 0, fun _ _ => none⟩
        130 ⟨[], [], true⟩ [] [0]).1 = RecognizeResult.noFaceDetected) ∧
    ((recognize_image_bytes ⟨[], fun _ => none, fun _ => none⟩
        ⟨fun _ => some 1, id, fun _ => [5], fun _ _ => 0, fun _ _ => none⟩
        130 ⟨[], [], true⟩ [] [0]).1 = RecognizeResult.noModels) ∧
    ((recognize_image_bytes ⟨[], fun _ => none, fun _ => none⟩
        ⟨fun _ => some 1, id, fun _ => [5], fun _ _ => 0, fun _ _ => none⟩
        130 ⟨[(7, 0)], [(0, "alice")], true⟩ [] [0]).1
      = RecognizeResult.noPrediction) ∧
    ((recognize_image_bytes ⟨[], fun _ => none, fun _ => none⟩
        ⟨fun _ => some 1, id, fun _ => [5], fun _ _ => 0,
          fun _ _ => some (0, 200)⟩
        130 ⟨[(7, 0)], [(0, "alice")], true⟩ [] [0]).1
      = RecognizeResult.lowConfidence 200) :=
  ⟨(recognize_failure_taxonomy ⟨[], fun _ => none, fun _ => none⟩
      ⟨fun _ => none, id, fun _ => [], fun _ _ => 0, fun _ _ => none⟩
      130 ⟨[], [], true⟩ [] [0]).1 rfl,
   ((recognize_failure_taxonomy ⟨[], fun _ => none, fun _ => none⟩
      ⟨fun _ => some 1, id, fun _ => [], fun _ _ => 0, fun _ _ => none⟩
      130 ⟨[], [], true⟩ [] [0]).2 1 rfl).1 rfl,
   (((recognize_failure_taxonomy ⟨[], fun _ => none, fun _ => none⟩
      ⟨fun _ => some 1, id, fun _ => [5], fun _ _ => 0, fun _ _ => none⟩
      130 ⟨[], [], true⟩ [] [0]).2 1 rfl).2.1 (by decide) rfl),
   (((recognize_failure_taxonomy ⟨[], fun _ => none, fun _ => none⟩
      ⟨fun _ => some 1, id, fun _ => [5], fun _ _ => 0, fun _ _ => none⟩
      130 ⟨[(7, 0)], [(0, "alice")], true⟩ [] [0]).2 1 rfl).2.2.1
      (by decide) (by decide) (by decide)),
   (((recognize_failure_taxonomy ⟨[], fun _ => none, fun _ => none⟩
      ⟨fun _ => some 1, id, fun _ => [5], fun _ _ => 0,
        fun _ _ => some (0, 200)⟩
      130 ⟨[(7, 0)], [(0, "alice")], true⟩ [] [0]).2 1 rfl).2.2.2 200
      (by decide) (by decide) ⟨(0, 200), by decide, rfl⟩ (by decide)
      (by decide))⟩

/-- The storage-backend methods used by the mutation entry points
`save_user_image` and `delete_user` of the service. -/
structure BackendEnv where
  list_user_images : String → List String
  save_image : String → String → List Nat → String
  delete_user : String → Bool

/-- `face_service._next_image_filename`: `img{existing_count + 1}.jpg`. -/
def next_image_filename (existing_count : Nat) : String :=
  "img" ++ Nat.repr (existing_count + 1) ++ ".jpg"

/-- `face_service.save_user_image`: count the user's existing images, pick
`img{count+1}.jpg` when no filename is given, save, and invalidate the cache
(`_cache_loaded = False`). Returns the storage reference. -/
def save_user_image (benv : BackendEnv) (user : String)
    (file_bytes : List Nat) (filename : Option String)
    (cache : CacheState) : String × CacheState :=
  let imgs := benv.list_user_images user
  let count := imgs.length
  let fname := filename.getD (next_image_filename count)
  let path := benv.save_image user fname file_bytes
  (path, { cache with loaded := false })

/-- `face_service.delete_user`: delegate to the backend then invalidate the
cache, regardless of whether the backend reported a deletion. -/
def delete_user (benv : BackendEnv) (user : String) (cache : CacheState) :
    Bool × CacheState :=
  (benv.delete_user user, { cache with loaded := false })

/-- The backend and classifier capabilities used by `train_all`:
user/image enumeration, image download and grayscale decode (`none` when
`cv2.imread` returns `None`), canonical resize, the per-user model temp-file
name and random model id, and model persistence returning a reference. -/
structure TrainEnv where
  list_users : List String
  list_user_images : String → List String
  download_to_temp : String → String
  imread_gray : String → Option Nat
  resize : Nat → Nat
  model_temp : String → String
  model_id : String → String
  save_model : String → String → String

/-- Per-user outcome of `train_all`. -/
inductive TrainOutcome where
  | noImages
  | noValidImages
  | saved (ref : String)
deriving DecidableEq

/-- Loop state of the per-user loop of `train_all`. -/
structure TrainAcc where
  results : List (String × TrainOutcome)
  label_id : Nat
  temps : List String

/-- One iteration of the per-image loop of `train_all`: download the image to
a temp file, remove the temp file unconditionally (the removal sits before
the decode-success check), then skip the image if it failed to decode,
otherwise append the resized sample and the user's label. -/
def trainImageStep (env : TrainEnv) (lab : Nat)
    (st : List Nat × List Nat × List String) (img_ref : String) :
    List Nat × List Nat × List String :=
  let local_path := env.download_to_temp img_ref
  let temps := (st.2.2 ++ [local_path]).erase local_path
  match env.imread_gray local_path with
  | none => (st.1, st.2.1, temps)
  | some img => (st.1 ++ [env.resize img], st.2.1 ++ [lab], temps)

/-- One iteration of the per-user loop of `train_all`: `no-images` for a user
with no listed images, `no-valid-images` when no image decodes, otherwise
train (opaque), serialize through a temp file that is unlinked, persist under
`{user}_trainer_{random}.yml`, record the stored reference, and advance the
label counter. -/
def trainUserStep (env : TrainEnv) (acc : TrainAcc) (user : String) :
    TrainAcc :=
  let images := env.list_user_images user
  if images = [] then
    { acc with results := acc.results ++ [(user, .noImages)] }
  else
    let st := images.foldl (trainImageStep env acc.label_id)
      ([], [], acc.temps)
    if st.1 = [] then
      { acc with
        results := acc.results ++ [(user, .noValidImages)]
        temps := st.2.2 }
    else
      let tmp := env.model_temp user
      let temps := (st.2.2 ++ [tmp]).erase tmp
      let model_filename := user ++ "_trainer_" ++ env.model_id user ++ ".yml"
      let path := env.save_model user model_filename
      { results := acc.results ++ [(user, .saved path)],
        label_id := acc.label_id + 1,
        temps := temps }

/-- `face_service.train_all`: with no enrolled users return the empty mapping
immediately (note: without touching the cache); otherwise process each user
in listing order and finish with a forced cache rebuild against the
post-training store `senv`. -/
def train_all (env : TrainEnv) (senv : StoreEnv) (cache : CacheState)
    (temps : List String) : List (String × TrainOutcome) × LoadResult :=
  if env.list_users = [] then ([], ⟨cache, temps, []⟩)
  else
    let acc := env.list_users.foldl (trainUserStep env) ⟨[], 0, temps⟩
    (acc.results, load_models_into_cache senv true cache acc.temps)

theorem load_cache_temps_irrelevant (env : StoreEnv) (force : Bool)
    (cache : CacheState) (t1 t2 : List String) :
    (load_models_into_cache env force cache t1).cache
      = (load_models_into_cache env force cache t2).cache := by
  by_cases h : (cache.loaded && !force) = true
  · simp [load_models_into_cache, h]
  · have h0 : (cache.loaded && !force) = false := by
      simpa using h
    have c1 := core_foldl env env.list_models ⟨[], [], 0, t1⟩
    have c2 := core_foldl env env.list_models ⟨[], [], 0, t2⟩
    simp only [LoadAcc.core] at c1 c2
    have e1 : (List.foldl (loadStep env) ⟨[], [], 0, t1⟩
          env.list_models).recognizers
        = (List.foldl (coreStep env) ([], [], 0) env.list_models).1 := by
      rw [← c1]
    have e2 : (List.foldl (loadStep env) ⟨[], [], 0, t1⟩
          env.list_models).labelDict
        = (List.foldl (coreStep env) ([], [], 0) env.list_models).2.1 := by
      rw [← c1]
    have e3 : (List.foldl (loadStep env) ⟨[], [], 0, t2⟩
          env.list_models).recognizers
        = (List.foldl (coreStep env) ([], [], 0) env.list_models).1 := by
      rw [← c2]
    have e4 : (List.foldl (loadStep env) ⟨[], [], 0, t2⟩
          env.list_models).labelDict
        = (List.foldl (coreStep env) ([], [], 0) env.list_models).2.1 := by
      rw [← c2]
    simp [load_models_into_cache, h0, CacheState.mk.injEq, e1, e2, e3, e4]

/-- C6 (amended). `save_user_image` and `delete_user` always leave the cache
invalidated (`loaded = false`); `delete_user` does so also when the backend
reports no deletion. `train_all` ends with a forced rebuild — so its cache is
loaded and equals the rebuild of the post-training store — provided at least
one user is enrolled; with zero users it returns early without touching the
cache (see the counterexample for the unconditional original claim). -/
theorem mutators_invalidate_cache (benv : BackendEnv) (user : String)
    (file_bytes : List Nat) (filename : Option String) (cache : CacheState)
    (tenv : TrainEnv) (senv : StoreEnv) (temps : List String) :
    ((save_user_image benv user file_bytes filename cache).2.loaded
      = false) ∧
    ((delete_user benv user cache).2.loaded = false) ∧
    (tenv.list_users ≠ [] →
      (train_all tenv senv cache temps).2.cache.loaded = true ∧
      (train_all tenv senv cache temps).2.cache
        = (load_models_into_cache senv true cache temps).cache) := by
  refine ⟨rfl, rfl, ?_⟩
  intro h
  constructor
  · simp only [train_all, if_neg h]
    exact rebuild_loaded_after senv true cache _
  · simp only [train_all, if_neg h]
    exact load_cache_temps_irrelevant senv true cache _ temps

theorem mutators_invalidate_cache_witness :
    ((save_user_image ⟨fun _ => [], fun u f _ => u ++ "/" ++ f, fun _ => false⟩
        "alice" [1] none ⟨[], [], true⟩).2.loaded = false) ∧
    ((delete_user ⟨fun _ => [], fun u f _ => u ++ "/" ++ f, fun _ => false⟩
        "ghost" ⟨[], [], true⟩).1 = false) ∧
    ((delete_user ⟨fun _ => [], fun u f _ => u ++ "/" ++ f, fun _ => false⟩
        "ghost" ⟨[], [], true⟩).2.loaded = false) ∧
    ((train_all
        ⟨["alice"], fun _ => ["alice/img1.jpg"], fun r => r,
          fun _ => some 4, id, fun u => u ++ ".tmp", fun _ => "RND",
          fun u f => u ++ "/trainer/" ++ f⟩
        ⟨[("alice", "alice/trainer/m.yml")], fun _ => some "t0",
          fun _ => some 9⟩
        ⟨[], [], false⟩ []).2.cache.loaded = true) :=
  ⟨(mutators_invalidate_cache
      ⟨fun _ => [], fun u f _ => u ++ "/" ++ f, fun _ => false⟩
      "alice" [1] none ⟨[], [], true⟩
      ⟨["alice"], fun _ => ["alice/img1.jpg"], fun r => r, fun _ => some 4,
        id, fun u => u ++ ".tmp", fun _ => "RND",
        fun u f => u ++ "/trainer/" ++ f⟩
      ⟨[("alice", "alice/trainer/m.yml")], fun _ => some "t0",
        fun _ => some 9⟩ []).1,
   rfl,
   (mutators_invalidate_cache
      ⟨fun _ => [], fun u f _ => u ++ "/" ++ f, fun _ => false⟩
      "ghost" [1] none ⟨[], [], true⟩
      ⟨["alice"], fun _ => ["alice/img1.jpg"], fun r => r, fun _ => some 4,
        id, fun u => u ++ ".tmp", fun _ => "RND",
        fun u f => u ++ "/trainer/" ++ f⟩
      ⟨[("alice", "alice/trainer/m.yml")], fun _ => some "t0",
        fun _ => some 9⟩ []).2.1,
   ((mutators_invalidate_cache
      ⟨fun _ => [], fun u f _ => u ++ "/" ++ f, fun _ => false⟩
      "alice" [1] none ⟨[], [], false⟩
      ⟨["alice"], fun _ => ["alice/img1.jpg"], fun r => r, fun _ => some 4,
        id, fun u => u ++ ".tmp", fun _ => "RND",
        fun u f => u ++ "/trainer/" ++ f⟩
      ⟨[("alice", "alice/trainer/m.yml")], fun _ => some "t0",
        fun _ => some 9⟩ []).2.2 (by decide)).1⟩

/-- C6 (counterexample to the original claim). With zero enrolled users,
`train_all` returns before its final `load_models_into_cache(force=True)`
call: the cache stays unloaded even though the store holds a model, so it is
not true that after every `train_all` return the cache is loaded. -/
theorem train_all_empty_store_skips_reload :
    (train_all
      ⟨[], fun _ => [], fun r => r, fun _ => none, id, fun u => u,
        fun _ => "RND", fun u f => u ++ "/" ++ f⟩
      ⟨[("alice", "alice/trainer/m.yml")], fun _ => some "t0",
        fun _ => some 9⟩
      ⟨[], [], false⟩ []).2.cache.loaded = false := by
  decide

/-- The per-user outcome stated by the spec: `no-images` for a user with
zero listed images, `no-valid-images` for a user whose images all fail to
decode, and otherwise the reference of the newly persisted model artifact. -/
def trainOutcomeSpec (env : TrainEnv) (user : String) : TrainOutcome :=
  if env.list_user_images user = [] then .noImages
  else if (env.list_user_images user).all
      (fun r => (env.imread_gray (env.download_to_temp r)).isNone) then
    .noValidImages
  else .saved (env.save_model user
    (user ++ "_trainer_" ++ env.model_id user ++ ".yml"))

theorem trainImages_faces (env : TrainEnv) (lab : Nat) :
    ∀ (images : List String) (f l : List Nat) (t : List String),
      (images.foldl (trainImageStep env lab) (f, l, t)).1
        = f ++ (images.filter
            (fun r => (env.imread_gray (env.download_to_temp r)).isSome)).map
            (fun r => env.resize
              ((env.imread_gray (env.download_to_temp r)).getD 0)) := by
  intro images
  induction images with
  | nil => intro f l t; simp
  | cons r rest ih =>
    intro f l t
    cases himg : env.imread_gray (env.download_to_temp r) with
    | none =>
      simp only [List.foldl_cons, trainImageStep, himg]
      rw [ih]
      simp [List.filter_cons, himg]
    | some img =>
      simp only [List.foldl_cons, trainImageStep, himg]
      rw [ih]
      simp [List.filter_cons, himg]

theorem all_none_iff_filter_some_nil (env : TrainEnv)
    (images : List String) :
    (images.filter
        (fun r => (env.imread_gray (env.download_to_temp r)).isSome) = [])
      ↔ images.all
        (fun r => (env.imread_gray (env.download_to_temp r)).isNone)
        = true := by
  rw [List.filter_eq_nil_iff, List.all_eq_true]
  refine forall_congr' fun r => forall_congr' fun _ => ?_
  cases env.imread_gray (env.download_to_temp r) <;> simp

theorem trainUserStep_results (env : TrainEnv) (acc : TrainAcc)
    (user : String) :
    (trainUserStep env acc user).results
      = acc.results ++ [(user, trainOutcomeSpec env user)] := by
  by_cases h1 : env.list_user_images user = []
  · simp [trainUserStep, trainOutcomeSpec, h1]
  · have hfaces := trainImages_faces env acc.label_id
      (env.list_user_images user) [] [] acc.temps
    by_cases h2 : (env.list_user_images user).all
        (fun r => (env.imread_gray (env.download_to_temp r)).isNone) = true
    · have hnil : ((env.list_user_images user).foldl
          (trainImageStep env acc.label_id) ([], [], acc.temps)).1 = [] := by
        rw [hfaces]
        simp only [List.nil_append, List.map_eq_nil_iff]
        exact (all_none_iff_filter_some_nil env _).mpr h2
      simp [trainUserStep, trainOutcomeSpec, h1, hnil, h2]
    · have hnn : ((env.list_user_images user).foldl
          (trainImageStep env acc.label_id) ([], [], acc.temps)).1 ≠ [] := by
        rw [hfaces]
        simp only [List.nil_append, ne_eq, List.map_eq_nil_iff]
        intro hcon
        exact h2 ((all_none_iff_filter_some_nil env _).mp hcon)
      simp [trainUserStep, trainOutcomeSpec, h1, hnn, h2]

theorem trainUsers_results (env : TrainEnv) :
    ∀ (l : List String) (acc : TrainAcc),
      (l.foldl (trainUserStep env) acc).results
        = acc.results ++ l.map (fun u => (u, trainOutcomeSpec env u)) := by
  intro l
  induction l with
  | nil => intro acc; simp
  | cons u rest ih =>
    intro acc
    rw [List.foldl_cons, ih, trainUserStep_results]
    simp

theorem lookup_map_self {α : Type} (g : String → α) :
    ∀ (l : List String) (u : String), u ∈ l →
      (l.map (fun x => (x, g x))).lookup u = some (g u) := by
  intro l
  induction l with
  | nil => intro u hu; exact absurd hu (List.not_mem_nil u)
  | cons x rest ih =>
    intro u hu
    by_cases hx : u = x
    · simp [List.lookup, hx]
    · rcases List.mem_cons.mp hu with h | h
      · exact absurd h hx
      · have hbeq : (u == x) = false := beq_eq_false_iff_ne.mpr hx
        simpa [List.lookup, hbeq] using ih u h

/-- C7. For every enrolled user, `train_all` records exactly the spec's
per-user outcome: `no-images` with zero listed images, `no-valid-images`
when images exist but none decodes (an undecodable image is skipped, never
raises), and otherwise the reference of the newly persisted model
artifact. -/
theorem train_all_outcomes (env : TrainEnv) (senv : StoreEnv)
    (cache : CacheState) (temps : List String) (user : String)
    (hu : user ∈ env.list_users) :
    (train_all env senv cache temps).1.lookup user
      = some (trainOutcomeSpec env user) := by
  have hne : env.list_users ≠ [] := by
    intro hcon
    rw [hcon] at hu
    exact absurd hu (List.not_mem_nil user)
  simp only [train_all, if_neg hne]
  rw [trainUsers_results]
  simp only [List.nil_append]
  exact lookup_map_self _ _ _ hu

theorem train_all_outcomes_witness :
    ((train_all
        ⟨["a", "b", "c"],
          fun u => if u = "a" then []
            else if u = "b" then ["b/i1.jpg"] else ["c/i1.jpg"],
          fun r => r,
          fun p => if p = "c/i1.jpg" then some 3 else none,
          id, fun u => u ++ ".tmp", fun _ => "RND",
          fun u f => u ++ "/trainer/" ++ f⟩
        ⟨[], fun _ => none, fun _ => none⟩
        ⟨[], [], false⟩ []).1.lookup "a" = some TrainOutcome.noImages) ∧
    ((train_all
        ⟨["a", "b", "c"],
          fun u => if u = "a" then []
            else if u = "b" then ["b/i1.jpg"] else ["c/i1.jpg"],
          fun r => r,
          fun p => if p = "c/i1.jpg" then some 3 else none,
          id, fun u => u ++ ".tmp", fun _ => "RND",
          fun u f => u ++ "/trainer/" ++ f⟩
        ⟨[], fun _ => none, fun _ => none⟩
        ⟨[], [], false⟩ []).1.lookup "b"
      = some TrainOutcome.noValidImages) ∧
    ((train_all
        ⟨["a", "b", "c"],
          fun u => if u = "a" then []
            else if u = "b" then ["b/i1.jpg"] else ["c/i1.jpg"],
          fun r => r,
          fun p => if p = "c/i1.jpg" then some 3 else none,
          id, fun u => u ++ ".tmp", fun _ => "RND",
          fun u f => u ++ "/trainer/" ++ f⟩
        ⟨[], fun _ => none, fun _ => none⟩
        ⟨[], [], false⟩ []).1.lookup "c"
      = some (TrainOutcome.saved "c/trainer/c_trainer_RND.yml")) := by
  refine ⟨?_, ?_, ?_⟩
  · rw [train_all_outcomes _ _ _ _ "a" (by decide)]
    decide
  · rw [train_all_outcomes _ _ _ _ "b" (by decide)]
    decide
  · rw [train_all_outcomes _ _ _ _ "c" (by decide)]
    decide

/-- Numeric value of a decimal digit character, inverse to `Nat.digitChar`
on 0..9. -/
def digitVal (c : Char) : Nat :=
  if c = '0' then 0 else if c = '1' then 1 else if c = '2' then 2
  else if c = '3' then 3 else if c = '4' then 4 else if c = '5' then 5
  else if c = '6' then 6 else if c = '7' then 7 else if c = '8' then 8
  else 9

/-- Value of a decimal digit string, most significant first. -/
def valOfDigits (l : List Char) : Nat :=
  l.foldl (fun a c => 10 * a + digitVal c) 0

theorem digitVal_digitChar (m : Nat) (h : m < 10) :
    digitVal (Nat.digitChar m) = m := by
  interval_cases m <;> rfl

theorem valOfDigits_append_digit (xs : List Char) (c : Char) :
    valOfDigits (xs ++ [c]) = 10 * valOfDigits xs + digitVal c := by
  simp [valOfDigits, List.foldl_append]

theorem toDigitsCore_shift (b : Nat) :
    ∀ (fuel n : Nat) (ds : List Char),
      Nat.toDigitsCore b fuel n ds = Nat.toDigitsCore b fuel n [] ++ ds := by
  intro fuel
  induction fuel with
  | zero => intro n ds; simp [Nat.toDigitsCore]
  | succ f ih =>
    intro n ds
    simp only [Nat.toDigitsCore]
    by_cases h : n / b = 0
    · simp [h]
    · rw [if_neg h, if_neg h, ih (n / b) (Nat.digitChar (n % b) :: ds),
        ih (n / b) [Nat.digitChar (n % b)]]
      simp

theorem valOfDigits_toDigitsCore :
    ∀ (fuel n : Nat), n < fuel →
      valOfDigits (Nat.toDigitsCore 10 fuel n []) = n := by
  intro fuel
  induction fuel with
  | zero => intro n h; exact absurd h (Nat.not_lt_zero n)
  | succ f ih =>
    intro n h
    simp only [Nat.toDigitsCore]
    by_cases h0 : n / 10 = 0
    · rw [if_pos h0]
      have hlt : n < 10 := by omega
      have : valOfDigits [Nat.digitChar (n % 10)]
          = digitVal (Nat.digitChar (n % 10)) := by
        simp [valOfDigits]
      rw [this, digitVal_digitChar _ (Nat.mod_lt n (by norm_num))]
      omega
    · rw [if_neg h0, toDigitsCore_shift, valOfDigits_append_digit,
        ih (n / 10) (by omega),
        digitVal_digitChar _ (Nat.mod_lt n (by omega))]
      omega

theorem repr_injective (a b : Nat) (h : Nat.repr a = Nat.repr b) : a = b := by
  have hdata : Nat.toDigits 10 a = Nat.toDigits 10 b :=
    congrArg String.data h
  have ha : valOfDigits (Nat.toDigits 10 a) = a :=
    valOfDigits_toDigitsCore (a + 1) a (Nat.lt_succ_self a)
  have hb : valOfDigits (Nat.toDigits 10 b) = b :=
    valOfDigits_toDigitsCore (b + 1) b (Nat.lt_succ_self b)
  rw [← ha, ← hb, hdata]

theorem toDigitsCore_ne_nil (n f : Nat) :
    Nat.toDigitsCore 10 (f + 1) n [] ≠ [] := by
  simp only [Nat.toDigitsCore]
  by_cases h : n / 10 = 0
  · simp [h]
  · rw [if_neg h, toDigitsCore_shift]
    simp

theorem repr_data_ne_nil (n : Nat) : (Nat.repr n).data ≠ [] := by
  show Nat.toDigits 10 n ≠ []
  exact toDigitsCore_ne_nil n n

theorem next_image_filename_injective (a b : Nat)
    (h : next_image_filename a = next_image_filename b) : a = b := by
  have hdata : "img".data ++ (Nat.repr (a + 1)).data ++ ".jpg".data
      = "img".data ++ (Nat.repr (b + 1)).data ++ ".jpg".data := by
    have := congrArg String.data h
    simpa [next_image_filename, String.data_append] using this
  have h2 : (Nat.repr (a + 1)).data = (Nat.repr (b + 1)).data := by
    have h3 := List.append_cancel_right hdata
    exact List.append_cancel_left h3
  have h4 : Nat.repr (a + 1) = Nat.repr (b + 1) := by
    cases hra : Nat.repr (a + 1) with
    | mk da =>
      cases hrb : Nat.repr (b + 1) with
      | mk db =>
        rw [hra, hrb] at h2
        simp only at h2
        rw [h2]
  have := repr_injective (a + 1) (b + 1) h4
  omega

/-- Python `str.lower()` modelled per code point. -/
def strToLower (s : String) : String := ⟨s.data.map Char.toLower⟩

/-- `pathlib.Path(name).suffix`: the substring from the last dot, provided
the dot is neither the first nor the last character of the name; otherwise
the empty string. -/
def pathSuffix (s : String) : String :=
  let ext := s.data.reverse.takeWhile (fun c => c ≠ '.')
  if 0 < ext.length ∧ ext.length + 1 < s.data.length then ⟨'.' :: ext.reverse⟩
  else ""

/-- The image-extension filter of `LocalStorage.list_user_images`:
`p.suffix.lower() in (".jpg", ".jpeg", ".png")`. -/
def imageSuffixOk (s : String) : Bool :=
  [".jpg", ".jpeg", ".png"].contains (strToLower (pathSuffix s))

/-- Lexicographic code-point comparison on strings, as used by Python
`sorted` on same-directory paths. -/
def charListLe : List Char → List Char → Bool
  | [], _ => true
  | _ :: _, [] => false
  | c :: cs, d :: ds =>
    if c < d then true else if d < c then false else charListLe cs ds

/-- Insertion step of the sort modelling Python `sorted`. -/
def insertSorted (s : String) : List String → List String
  | [] => [s]
  | t :: ts =>
    if charListLe s.data t.data then s :: t :: ts else t :: insertSorted s ts

/-- Ascending lexicographic sort modelling Python `sorted`. -/
def sortStrings (l : List String) : List String := l.foldr insertSorted []

/-- Replace the value under a key, or append the binding — the effect of
writing a file into a directory listing. -/
def upsert {α : Type} (l : List (String × α)) (k : String) (v : α) :
    List (String × α) :=
  match l with
  | [] => [(k, v)]
  | (k0, v0) :: rest =>
    if k0 = k then (k, v) :: rest else (k0, v0) :: upsert rest k v

namespace LocalStorage

/-- One user directory of the local backend: the image files directly in it
and the model files in its `trainer` subdirectory, both as listings
filename → content in creation order. -/
structure UserData where
  images : List (String × List Nat)
  models : List (String × List Nat)
deriving DecidableEq

/-- The base directory of `LocalStorage`: one subdirectory per user. -/
structure FS where
  users : List (String × UserData)
deriving DecidableEq

/-- `LocalStorage.save_image`: create the user directory if absent, write
(overwrite) the file, return its path. References are rendered relative to
the base directory (`user/filename`). -/
def save_image (fs : FS) (user filename : String) (content : List Nat) :
    String × FS :=
  let d := (fs.users.lookup user).getD ⟨[], []⟩
  (user ++ "/" ++ filename,
    ⟨upsert fs.users user { d with images := upsert d.images filename content }⟩)

/-- `LocalStorage.list_user_images`: empty for an absent user directory,
otherwise the entries carrying an image suffix, sorted lexicographically.
(The source sorts the directory entries and then filters; entries without an
image suffix — such as the `trainer` subdirectory — never survive the
filter, so filtering before sorting is equivalent. References are rendered
relative to the user directory.) -/
def list_user_images (fs : FS) (user : String) : List String :=
  match fs.users.lookup user with
  | none => []
  | some d =>
    sortStrings ((d.images.filter (fun e => imageSuffixOk e.1)).map Prod.fst)

/-- `LocalStorage.delete_user`: `False` when the user directory does not
exist, otherwise remove the whole directory tree and return `True`. -/
def delete_user (fs : FS) (user : String) : Bool × FS :=
  match fs.users.lookup user with
  | none => (false, fs)
  | some _ => (true, ⟨fs.users.filter (fun e => !(e.1 == user))⟩)

end LocalStorage

/-- `face_service.save_user_image` specialized to the local backend, on the
no-explicit-filename path: count the user's images and save under
`img{count+1}.jpg`. (The cache invalidation this entry point also performs
is modelled in `save_user_image` above.) -/
def save_user_image_local (fs : LocalStorage.FS) (user : String)
    (content : List Nat) : String × LocalStorage.FS :=
  let imgs := LocalStorage.list_user_images fs user
  let filename := next_image_filename imgs.length
  LocalStorage.save_image fs user filename content

/-- The state of the local store after `n` enrollment saves for `user`
starting from an empty base directory, the `i`-th save carrying bytes
`f i`. -/
def saveSeq (user : String) (f : Nat → List Nat) : Nat → LocalStorage.FS
  | 0 => ⟨[]⟩
  | n + 1 => (save_user_image_local (saveSeq user f n) user (f n)).2

theorem lookup_upsert_self {α : Type} (l : List (String × α)) (k : String)
    (v : α) : (upsert l k v).lookup k = some v := by
  induction l with
  | nil => simp [upsert, List.lookup]
  | cons e rest ih =>
    obtain ⟨k0, v0⟩ := e
    by_cases h : k0 = k
    · simp [upsert, h, List.lookup]
    · have hbeq : (k == k0) = false := beq_eq_false_iff_ne.mpr (Ne.symm h)
      simp [upsert, h, List.lookup, hbeq, ih]

theorem lookup_upsert_other {α : Type} (l : List (String × α))
    (k k' : String) (v : α) (h : k' ≠ k) :
    (upsert l k v).lookup k' = l.lookup k' := by
  have hbk : (k' == k) = false := beq_eq_false_iff_ne.mpr h
  induction l with
  | nil => simp [upsert, List.lookup, hbk]
  | cons e rest ih =>
    obtain ⟨k0, v0⟩ := e
    by_cases h0 : k0 = k
    · have hbk0 : (k' == k0) = false :=
        beq_eq_false_iff_ne.mpr (h0 ▸ h)
      simp [upsert, h0, List.lookup, hbk, hbk0]
    · by_cases h1 : k' = k0
      · simp [upsert, h0, List.lookup, h1]
      · have hbk1 : (k' == k0) = false := beq_eq_false_iff_ne.mpr h1
        simp [upsert, h0, List.lookup, hbk1, ih]

theorem upsert_append_of_not_mem {α : Type} (l : List (String × α))
    (k : String) (v : α) (h : ∀ e ∈ l, e.1 ≠ k) :
    upsert l k v = l ++ [(k, v)] := by
  induction l with
  | nil => rfl
  | cons e rest ih =>
    obtain ⟨k0, v0⟩ := e
    have hk0 : k0 ≠ k := h (k0, v0) (List.mem_cons_self _ _)
    simp only [upsert, if_neg hk0, List.cons_append, List.cons.injEq,
      true_and]
    exact ih fun e he => h e (List.mem_cons_of_mem _ he)

theorem lookup_filter_ne {α : Type} (l : List (String × α)) (u v : String)
    (h : u ≠ v) :
    (l.filter (fun e => !(e.1 == u))).lookup v = l.lookup v := by
  induction l with
  | nil => rfl
  | cons e rest ih =>
    obtain ⟨k0, v0⟩ := e
    by_cases h0 : k0 = u
    · have hbu : (k0 == u) = true := beq_iff_eq.mpr h0
      have hbv : (v == k0) = false :=
        beq_eq_false_iff_ne.mpr (by rw [h0]; exact fun hc => h hc.symm)
      simp [List.filter_cons, hbu, List.lookup, hbv, ih]
    · have hbu : (k0 == u) = false := beq_eq_false_iff_ne.mpr h0
      by_cases h1 : v = k0
      · simp [List.filter_cons, hbu, List.lookup, h1]
      · have hbv : (v == k0) = false := beq_eq_false_iff_ne.mpr h1
        simp [List.filter_cons, hbu, List.lookup, hbv, ih]

/-- C10. Frame effects of the local backend: `delete_user u` leaves every
other user's directory — hence their image list and model entries —
unchanged, and `save_image u filename` changes at most the single object
`filename` in `u`'s namespace: every other user's directory, every other
image of `u`, and `u`'s model entries are unchanged. -/
theorem storage_frame_effects (fs : LocalStorage.FS)
    (u v fname g : String) (content : List Nat)
    (huv : u ≠ v) (hg : g ≠ fname) :
    ((LocalStorage.delete_user fs u).2.users.lookup v
      = fs.users.lookup v) ∧
    (LocalStorage.list_user_images (LocalStorage.delete_user fs u).2 v
      = LocalStorage.list_user_images fs v) ∧
    ((LocalStorage.save_image fs u fname content).2.users.lookup v
      = fs.users.lookup v) ∧
    ((((LocalStorage.save_image fs u fname content).2.users.lookup u).getD
        ⟨[], []⟩).images.lookup g
      = ((fs.users.lookup u).getD ⟨[], []⟩).images.lookup g) ∧
    ((((LocalStorage.save_image fs u fname content).2.users.lookup u).getD
        ⟨[], []⟩).models
      = ((fs.users.lookup u).getD ⟨[], []⟩).models) := by
  have hdel : (LocalStorage.delete_user fs u).2.users.lookup v
      = fs.users.lookup v := by
    cases hl : fs.users.lookup u with
    | none => simp [LocalStorage.delete_user, hl]
    | some d =>
      simp only [LocalStorage.delete_user, hl]
      exact lookup_filter_ne fs.users u v huv
  refine ⟨hdel, ?_, ?_, ?_, ?_⟩
  · simp only [LocalStorage.list_user_images, hdel]
  · simp only [LocalStorage.save_image]
    exact lookup_upsert_other fs.users u v _ (Ne.symm huv)
  · simp only [LocalStorage.save_image, lookup_upsert_self, Option.getD_some]
    exact lookup_upsert_other _ fname g content hg
  · simp only [LocalStorage.save_image, lookup_upsert_self, Option.getD_some]

theorem storage_frame_effects_witness :
    ((LocalStorage.delete_user
        ⟨[("u", ⟨[("img1.jpg", [1])], [("m.yml", [2])]⟩),
          ("v", ⟨[("img1.jpg", [3])], []⟩)]⟩ "u").2.users.lookup "v"
      = some ⟨[("img1.jpg", [3])], []⟩) ∧
    ((LocalStorage.save_image
        ⟨[("u", ⟨[("img1.jpg", [1])], [("m.yml", [2])]⟩),
          ("v", ⟨[("img1.jpg", [3])], []⟩)]⟩ "u" "img2.jpg" [9]).2.users.lookup
        "v" = some ⟨[("img1.jpg", [3])], []⟩) ∧
    ((((LocalStorage.save_image
        ⟨[("u", ⟨[("img1.jpg", [1])], [("m.yml", [2])]⟩),
          ("v", ⟨[("img1.jpg", [3])], []⟩)]⟩ "u" "img2.jpg"
        [9]).2.users.lookup "u").getD ⟨[], []⟩).images.lookup "img1.jpg"
      = some [1]) ∧
    ((((LocalStorage.save_image
        ⟨[("u", ⟨[("img1.jpg", [1])], [("m.yml", [2])]⟩),
          ("v", ⟨[("img1.jpg", [3])], []⟩)]⟩ "u" "img2.jpg"
        [9]).2.users.lookup "u").getD ⟨[], []⟩).models
      = [("m.yml", [2])]) := by
  have hw := storage_frame_effects
    ⟨[("u", ⟨[("img1.jpg", [1])], [("m.yml", [2])]⟩),
      ("v", ⟨[("img1.jpg", [3])], []⟩)]⟩
    "u" "v" "img2.jpg" "img1.jpg" [9] (by decide) (by decide)
  refine ⟨?_, ?_, ?_, ?_⟩
  · rw [hw.1]; decide
  · rw [hw.2.2.1]; decide
  · rw [hw.2.2.2.1]; decide
  · rw [hw.2.2.2.2]; decide

theorem insertSorted_length (s : String) :
    ∀ l : List String, (insertSorted s l).length = l.length + 1 := by
  intro l
  induction l with
  | nil => rfl
  | cons t ts ih =>
    by_cases h : charListLe s.data t.data = true
    · simp [insertSorted, h]
    · simp [insertSorted, h, ih]

theorem sortStrings_length (l : List String) :
    (sortStrings l).length = l.length := by
  induction l with
  | nil => rfl
  | cons s rest ih =>
    simp [sortStrings, List.foldr_cons, insertSorted_length]
    simpa [sortStrings] using ih

theorem insertSorted_perm (s : String) :
    ∀ l : List String, List.Perm (insertSorted s l) (s :: l) := by
  intro l
  induction l with
  | nil => exact List.Perm.refl _
  | cons t ts ih =>
    by_cases h : charListLe s.data t.data = true
    · simp [insertSorted, h]
    · simp only [insertSorted, h, Bool.false_eq_true, if_false]
      exact (ih.cons t).trans (List.Perm.swap s t ts)

theorem sortStrings_perm (l : List String) :
    List.Perm (sortStrings l) l := by
  induction l with
  | nil => exact List.Perm.refl _
  | cons s rest ih =>
    simp only [sortStrings, List.foldr_cons]
    exact (insertSorted_perm s _).trans (ih.cons s)

theorem imageSuffixOk_next (i : Nat) :
    imageSuffixOk (next_image_filename i) = true := by
  have hdata : (next_image_filename i).data
      = "img".data ++ ((Nat.repr (i + 1)).data ++ ".jpg".data) := by
    simp [next_image_filename, String.data_append]
  have hrev : (next_image_filename i).data.reverse
      = 'g' :: 'p' :: 'j' :: '.' ::
        ((Nat.repr (i + 1)).data.reverse ++ "img".data.reverse) := by
    rw [hdata, List.reverse_append, List.reverse_append]
    rfl
  have hext : (next_image_filename i).data.reverse.takeWhile
      (fun c => c ≠ '.') = ['g', 'p', 'j'] := by
    rw [hrev, List.takeWhile_cons_of_pos (by decide),
      List.takeWhile_cons_of_pos (by decide),
      List.takeWhile_cons_of_pos (by decide),
      List.takeWhile_cons_of_neg (by decide)]
  have hrlen : 0 < (Nat.repr (i + 1)).data.length :=
    List.length_pos.mpr (repr_data_ne_nil (i + 1))
  have hlen : (next_image_filename i).data.length
      = 7 + (Nat.repr (i + 1)).data.length := by
    rw [hdata]
    simp [List.length_append]
    omega
  have hsuffix : pathSuffix (next_image_filename i) = ".jpg" := by
    simp only [pathSuffix, hext]
    rw [if_pos ⟨by decide,
      by rw [hlen]; simp only [List.length_cons, List.length_nil]; omega⟩]
    rfl
  simp only [imageSuffixOk, hsuffix]
  decide

/-- The image listing of a user directory after `n` enrollment saves. -/
def imgEntries (f : Nat → List Nat) (n : Nat) : List (String × List Nat) :=
  (List.range n).map (fun i => (next_image_filename i, f i))

theorem imgEntries_key_ne (f : Nat → List Nat) (n : Nat) :
    ∀ e ∈ imgEntries f n, e.1 ≠ next_image_filename n := by
  intro e he
  obtain ⟨i, hi, rfl⟩ := List.mem_map.mp he
  have hin : i < n := List.mem_range.mp hi
  intro hc
  exact absurd (next_image_filename_injective i n hc) (Nat.ne_of_lt hin)

theorem list_user_images_entries (user : String) (f : Nat → List Nat)
    (n : Nat) :
    LocalStorage.list_user_images ⟨[(user, ⟨imgEntries f n, []⟩)]⟩ user
      = sortStrings ((List.range n).map next_image_filename) := by
  have hl : (([(user, (⟨imgEntries f n, []⟩ : LocalStorage.UserData))] :
      List (String × LocalStorage.UserData)).lookup user)
      = some ⟨imgEntries f n, []⟩ := by
    simp [List.lookup]
  simp only [LocalStorage.list_user_images, hl]
  have hfil : (imgEntries f n).filter (fun e => imageSuffixOk e.1)
      = imgEntries f n := by
    rw [List.filter_eq_self]
    intro e he
    obtain ⟨i, _, rfl⟩ := List.mem_map.mp he
    exact imageSuffixOk_next i
  rw [hfil]
  congr 1
  simp [imgEntries, List.map_map]

theorem saveSeq_users (user : String) (f : Nat → List Nat) :
    ∀ n, (saveSeq user f n).users
      = if n = 0 then []
        else [(user, ⟨imgEntries f n, []⟩)] := by
  intro n
  induction n with
  | zero => rfl
  | succ m ih =>
    rw [if_neg (Nat.succ_ne_zero m)]
    by_cases hm : m = 0
    · subst hm
      simp [saveSeq, save_user_image_local, LocalStorage.save_image,
        LocalStorage.list_user_images, List.lookup, upsert, imgEntries,
        List.range_succ]
    · rw [if_neg hm] at ih
      show (save_user_image_local (saveSeq user f m) user (f m)).2.users = _
      have hcount : (LocalStorage.list_user_images (saveSeq user f m)
          user).length = m := by
        have : LocalStorage.list_user_images (saveSeq user f m) user
            = LocalStorage.list_user_images ⟨[(user, ⟨imgEntries f m, []⟩)]⟩
              user := by
          simp only [LocalStorage.list_user_images, ih]
        rw [this, list_user_images_entries, sortStrings_length,
          List.length_map, List.length_range]
      have hlook2 : (([(user, (⟨imgEntries f m, []⟩ :
            LocalStorage.UserData))] :
          List (String × LocalStorage.UserData)).lookup user)
          = some ⟨imgEntries f m, []⟩ := by
        simp [List.lookup]
      have hupim : upsert (imgEntries f m) (next_image_filename m) (f m)
          = imgEntries f (m + 1) := by
        rw [upsert_append_of_not_mem _ _ _ (imgEntries_key_ne f m)]
        simp [imgEntries, List.range_succ]
      have hupus : upsert [(user, (⟨imgEntries f m, []⟩ :
            LocalStorage.UserData))] user
            ⟨upsert (imgEntries f m) (next_image_filename m) (f m), []⟩
          = [(user, ⟨upsert (imgEntries f m) (next_image_filename m) (f m),
              []⟩)] := by
        simp [upsert]
      simp only [save_user_image_local, LocalStorage.save_image, hcount, ih,
        hlook2, Option.getD_some]
      rw [hupus, hupim]

theorem saveSeq_list_user_images (user : String) (f : Nat → List Nat)
    (n : Nat) :
    LocalStorage.list_user_images (saveSeq user f n) user
      = sortStrings ((List.range n).map next_image_filename) := by
  cases n with
  | zero => rfl
  | succ m =>
    have h := saveSeq_users user f (m + 1)
    rw [if_neg (Nat.succ_ne_zero m)] at h
    have : LocalStorage.list_user_images (saveSeq user f (m + 1)) user
        = LocalStorage.list_user_images ⟨[(user, ⟨imgEntries f (m + 1), []⟩)]⟩
          user := by
      simp only [LocalStorage.list_user_images, h]
    rw [this, list_user_images_entries]

/-- C8 (amended). For a fresh user enrolled by `n` saves without explicit
filenames, the `k`-th save (0-based) receives filename `img{k+1}.jpg`
(`count + 1` with `count` the number of existing images), and after `N`
saves `listUserImages` returns exactly the `N` filenames `img1.jpg` ..
`imgN.jpg` — as a list of length `N`, a permutation of the save-order names,
but ordered lexicographically (which agrees with save order only up to nine
images). Numbering is never reused while the user exists; deleting the user
empties the listing, so a subsequent save restarts at `img1.jpg` (see the
counterexample for the unrestricted original claim). -/
theorem save_sequence_filenames (user : String) (f : Nat → List Nat)
    (N k : Nat) :
    ((LocalStorage.list_user_images (saveSeq user f N) user).length = N) ∧
    (LocalStorage.list_user_images (saveSeq user f N) user
      = sortStrings ((List.range N).map next_image_filename)) ∧
    (List.Perm (LocalStorage.list_user_images (saveSeq user f N) user)
      ((List.range N).map next_image_filename)) ∧
    ((save_user_image_local (saveSeq user f k) user (f k)).1
      = user ++ "/" ++ next_image_filename k) := by
  refine ⟨?_, saveSeq_list_user_images user f N, ?_, ?_⟩
  · rw [saveSeq_list_user_images, sortStrings_length, List.length_map,
      List.length_range]
  · rw [saveSeq_list_user_images]
    exact sortStrings_perm _
  · have hcount : (LocalStorage.list_user_images (saveSeq user f k)
        user).length = k := by
      rw [saveSeq_list_user_images, sortStrings_length, List.length_map,
        List.length_range]
    simp only [save_user_image_local, LocalStorage.save_image, hcount]

/-- C8 (counterexample to the original claim). After ten saves the listing
is in lexicographic order, not save order (`img10.jpg` sorts before
`img2.jpg`); and after deleting the user a fresh save reuses `img1.jpg`, so
sequence numbers are not preserved across a deletion. -/
theorem save_sequence_not_save_order :
    (LocalStorage.list_user_images (saveSeq "u" (fun _ => [0]) 10) "u"
      ≠ ["img1.jpg", "img2.jpg", "img3.jpg", "img4.jpg", "img5.jpg",
         "img6.jpg", "img7.jpg", "img8.jpg", "img9.jpg", "img10.jpg"]) ∧
    ((save_user_image_local
        (LocalStorage.delete_user
          (save_user_image_local ⟨[]⟩ "u" [0]).2 "u").2 "u" [0]).1
      = (save_user_image_local ⟨[]⟩ "u" [0]).1) := by
  decide

end SmartLocker
